import Mathlib

/-
Verification of the GASP (Graph Aware Sync Protocol) reconciliation engine
(bsv-blockchain/gasp-core) against its natural-language specification.

The engine source embedded here is the `GASP` class of the `GASP.ts` shipped
inside `src/package.json` (the legacy, concrete implementation: bloom-filter
handshake, `seenNodes` cycle guard, recursive `processIncomingNode` /
`processOutgoingNode`).  The current test suite (`src/src/__tests/GASP.test.ts`)
and the generated API documentation describe an evolved `GASP.ts` whose source
file is absent from `src/`; the parts of the engine that only exist in that
evolved version (per-graph error catching in `sync`, `submitNode` returning
`void`, best-effort `discardGraph`) are modelled from the spec in the
`SpecModel` namespace, each with a doc comment saying so.

Conventions of the shallow embedding:
* JavaScript strings are `List Char` (`Chars`), so that the JS string
  operations (`split`, `includes`, `padStart`, template literals, `parseInt`)
  can be implemented and reasoned about directly.
* Every call into `Storage` or `Remote` is recorded as an `Event` in a trace;
  fallible collaborator operations are oracles in an `Env` record (a `Bool`
  success oracle, or an `Option` result), so a run is a pure function
  returning `(Except Err Unit, trace, seenSet)`.
* The `seenNodes` key `` `${node.tx}:${node.outputIndex}` `` is represented
  by the pair `(node.tx, node.outputIndex)`: since the decimal index digits
  never contain `':'`, the string after the final `':'` determines the
  index and the key string is injective in the pair.
* `async`/`Promise.all` fan-out is linearised in list order: every branch
  runs to completion (promises are not cancelled) and the first rejection is
  the one that propagates — the observable behaviour the claims speak about.
* Unbounded recursion is represented with a fuel parameter; termination
  claims are stated as fuel-adequacy: one more unit of fuel than the number
  of not-yet-seen node identities in a finite universe never exhausts.
-/

namespace GASP

abbrev Chars := List Char

/-! ## JavaScript string primitives used by the engine -/

/-- JS `String.prototype.split(sep)` for a single-character separator:
`"abc".split(':') = ["abc"]`, `":".split(':') = ["", ""]`.  Never returns
the empty list. -/
def jsSplit (sep : Char) : Chars → List Chars
  | [] => [[]]
  | c :: cs =>
    if c = sep then [] :: jsSplit sep cs
    else
      match jsSplit sep cs with
      | [] => [[c]]
      | h :: t => (c :: h) :: t

/-- The decimal digit character for `d < 10` (JS number-to-string digits). -/
def digitChar (d : Nat) : Char := Char.ofNat (48 + d)

/-- Numeric value of a decimal digit character, as in `parseInt`. -/
def digitVal (c : Char) : Nat := c.toNat - 48

/-- Fuelled decimal representation: `natDigitsAux fuel n` is the list of
decimal digits of `n` (most significant first) provided `n < fuel`. -/
def natDigitsAux : Nat → Nat → Chars
  | 0, _ => []
  | fuel + 1, n =>
    if n < 10 then [digitChar n]
    else natDigitsAux fuel (n / 10) ++ [digitChar (n % 10)]

/-- JS `Number.prototype.toString()` for a natural number: canonical decimal
digits, no leading zeros (except `"0"`). -/
def natDigits (n : Nat) : Chars := natDigitsAux (n + 1) n

/-- JS `String.prototype.padStart(4, '0')`. -/
def padStart4 (s : Chars) : Chars := List.replicate (4 - s.length) '0' ++ s

/-- Accumulating core of `parseInt(s, 10)`: consume leading decimal digits. -/
def parseIntGo (acc : Nat) : Chars → Nat
  | [] => acc
  | c :: cs => if c.isDigit then parseIntGo (10 * acc + digitVal c) cs else acc

/-- JS `parseInt(s, 10)` restricted to the digit strings the engine feeds it
(the NaN case for a completely non-numeric string is not modelled: the engine
only parses the index component it produced itself). -/
def jsParseInt (s : Chars) : Nat := parseIntGo 0 s

/-- JS template literal `` `${txid}:${outputIndex}` `` (no padding):
used for bloom-filter tokens and for the `seenNodes` keys. -/
def token (txid : Chars) (idx : Nat) : Chars := txid ++ ':' :: natDigits idx

/-- JS `Array.prototype.join(',')`. -/
def joinComma : List Chars → Chars
  | [] => []
  | [x] => x
  | x :: y :: rest => x ++ ',' :: joinComma (y :: rest)

/-- Is `pre` a prefix of `l`? (Boolean, executable.) -/
def prefixEq : Chars → Chars → Bool
  | [], _ => true
  | _ :: _, [] => false
  | a :: as, b :: bs => a = b && prefixEq as bs

/-- JS `String.prototype.includes(needle)`: substring occurrence. -/
def jsIncludes (needle : Chars) : Chars → Bool
  | [] => needle.isEmpty
  | c :: rest => prefixEq needle (c :: rest) || jsIncludes needle rest

/-! ## The GASP engine's private string helpers

Sources: `GASP.compute36ByteStructure`, `GASP.deconstruct36ByteStructure`,
`GASP.calculateBloomFilter`, `GASP.checkFilterExclusion` in the `GASP.ts`
embedded in `src/package.json`. -/

/-- `compute36ByteStructure(txid, index)` =
`` `${txid}:${index.toString().padStart(4, '0')}` ``. -/
def compute36ByteStructure (txid : Chars) (index : Nat) : Chars :=
  txid ++ ':' :: padStart4 (natDigits index)

/-- `deconstruct36ByteStructure(outpoint)`:
`const [txid, index] = outpoint.split(':')`, `parseInt(index, 10)`. -/
def deconstruct36ByteStructure (outpoint : Chars) : Chars × Nat :=
  let parts := jsSplit ':' outpoint
  (parts.getD 0 [], jsParseInt (parts.getD 1 []))

/-- `calculateBloomFilter(txs)` =
`txs.map(tx => `${tx.txid}:${tx.outputIndex}`).join(',')`. -/
def calculateBloomFilter (txs : List (Chars × Nat)) : Chars :=
  joinComma (txs.map fun p => token p.1 p.2)

/-- `checkFilterExclusion(filter, txid, outputIndex)` =
`!filter.includes(`${txid}:${outputIndex}`)`. -/
def checkFilterExclusion (filter : Chars) (txid : Chars) (idx : Nat) : Bool :=
  ! jsIncludes (token txid idx) filter

/-! ## `findKnownUTXOs` (Storage collaborator, claim C5)

Source: `MockStorage.findKnownUTXOs` in `src/src/__tests/GASP.test.ts`:

```ts
const utxos = this.knownStore
    .filter(x => !x.time || x.time > since)
    .map(x => ({ txid: x.txid, outputIndex: x.outputIndex }))
```

The `time` field of a stored UTXO is modelled as `Option Nat`: `none` is an
absent (never-set) timestamp.  JavaScript's `!x.time` is truthy both when the
field is absent (`undefined`) and when it is the number `0`. -/

/-- A stored UTXO of the `knownStore` (the `Graph` record of the tests,
restricted to the fields `findKnownUTXOs` reads). -/
structure StoredUTXO where
  txid : Chars
  outputIndex : Nat
  time : Option Nat
  deriving Repr, DecidableEq

/-- JS truthiness test `!x.time` on the (possibly absent) timestamp. -/
def jsTimeFalsy : Option Nat → Bool
  | none => true
  | some t => t == 0

/-- `findKnownUTXOs(since)` as implemented by the storage:
`knownStore.filter(x => !x.time || x.time > since).map(...)`. -/
def findKnownUTXOs (store : List StoredUTXO) (since : Nat) : List (Chars × Nat) :=
  (store.filter fun x =>
    jsTimeFalsy x.time ||
      (match x.time with
       | none => false
       | some t => decide (t > since))).map fun x => (x.txid, x.outputIndex)

/-- The claim's stated semantics, written from the spec's words: return
exactly the UTXOs whose timestamp is strictly greater than `since` together
with every UTXO that has no timestamp, and nothing else. -/
def findKnownUTXOsClaimed (store : List StoredUTXO) (since : Nat) :
    List (Chars × Nat) :=
  (store.filter fun x =>
    (match x.time with
     | none => true
     | some t => decide (t > since))).map fun x => (x.txid, x.outputIndex)

/-- The amended semantics: a zero timestamp is JS-falsy, so UTXOs whose
timestamp is absent *or zero* are always returned, along with those whose
timestamp is strictly greater than `since`, and nothing else. -/
def findKnownUTXOsAmended (store : List StoredUTXO) (since : Nat) :
    List (Chars × Nat) :=
  (store.filter fun x =>
    decide (x.time = none) || decide (x.time = some 0) ||
      (match x.time with
       | none => false
       | some t => decide (t > since))).map fun x => (x.txid, x.outputIndex)

/-! ## Engine data model

Source: the type declarations and the `GASP` class of the `GASP.ts` embedded
in `src/package.json`.  `GASPNode` keeps the fields the engine itself reads
(`graphID`, `tx`, `outputIndex`); proofs and metadata are opaque payload the
engine forwards without inspecting, so they are dropped from the embedding. -/

structure GASPNode where
  graphID : Chars
  tx : Chars
  outputIndex : Nat
  deriving Repr, DecidableEq

/-- The `seenNodes` key `` `${node.tx}:${node.outputIndex}` `` as a pair. -/
abbrev NodeKey := Chars × Nat

def nodeKey (n : GASPNode) : NodeKey := (n.tx, n.outputIndex)

abbrev Seen := List NodeKey

/-- Error kinds the engine can observe from its collaborators (§7 of the
spec).  `outOfFuel` is the artefact of the fuelled embedding: a run that
exhausts its fuel. -/
inductive Err where
  | versionMismatch (current foreign : Nat)
  | appendFailed
  | validateFailed
  | remoteFailed
  | discardFailed
  | outOfFuel
  deriving Repr, DecidableEq

/-- One observable call into Storage or Remote (arguments as passed). -/
inductive Event where
  | findKnownUTXOs
  | hydrate (txid : Chars) (outputIndex : Nat)
  | findNeededInputs (tx : Chars) (outputIndex : Nat)
  | appendToGraph (tx : Chars) (outputIndex : Nat) (graphID : Chars)
      (spentBy : Option Chars)
  | requestNode (txid : Chars) (outputIndex : Nat)
  | validateGraphAnchor (graphID : Chars)
  | discardGraph (graphID : Chars)
  | finalizeGraph (graphID : Chars)
  | submitNode (tx : Chars) (outputIndex : Nat)
  | logError (e : Err)
  | logDiscardFailed (graphID : Chars)
  deriving Repr, DecidableEq

/-- The collaborators (Storage and Remote) as pure oracles.  Success or
failure of the fallible Storage operations is decided by `Bool` oracles;
`requestNode` returning `none` is a Remote failure.  `finalizeGraph` is
modelled as always succeeding (no claim concerns its failure).
The last three fields are only used by the spec-modelled evolved engine:
`submitNodeEv` is the evolved `submitNode` (it may return no `NodeResponse`),
`initialTips` the outcome of the pull-phase handshake, and `pushList` the
tips the push phase sends. -/
structure Env where
  knownUTXOs : List (Chars × Nat)
  hydrateGASPNode : Chars → Nat → GASPNode
  findNeededInputs : GASPNode → List (Chars × Bool)
  appendOk : GASPNode → Option Chars → Bool
  validateOk : Chars → Bool
  discardOk : Chars → Bool
  computeTXID : Chars → Chars
  requestNode : Chars → Nat → Bool → Option GASPNode
  submitResp : GASPNode → List (Chars × Bool)
  submitNodeEv : GASPNode → Except Err (Option (List (Chars × Bool)))
  initialTips : Except Err (List GASPNode)
  pushList : List GASPNode

/-! ## Incoming-node processing (legacy `GASP.processIncomingNode`)

```ts
async processIncomingNode(node, spentBy?, seenNodes = new Set()) {
  const nodeId = `${node.tx}:${node.outputIndex}`
  if (seenNodes.has(nodeId)) return
  seenNodes.add(nodeId)
  try { await this.storage.appendToGraph(node, spentBy) }
  catch (e) { await this.storage.discardGraph(node.graphID); throw e }
  const neededInputs = await this.storage.findNeededInputs(node)
  await Promise.all(Object.entries(neededInputs.requestedInputs).map(...
    const { txid, index } = this.deconstruct36ByteStructure(outpoint)
    const newNode = await this.remote.requestNode(txid, index, metadata)
    await this.processIncomingNode(newNode,
      this.compute36ByteStructure(this.computeTXID(node.tx), node.outputIndex),
      seenNodes) ...))
  if (typeof spentBy === 'undefined') {
    try { await this.storage.validateGraphAnchor(node.graphID) }
    catch (e) { await this.storage.discardGraph(node.graphID); throw e }
    await this.storage.finalizeGraph(node.graphID)
  }
}
```

Note that in the legacy code an error thrown by `discardGraph` itself
replaces the original error (the `await` in the catch block rejects before
`throw e` runs): this is the `Err.discardFailed` outcome below. -/

/-- The fan-out over `neededInputs.requestedInputs`: request each input from
the Remote and recurse (`step` is the recursive call at the next fuel level,
invoked with `spentBy = encode36(txid(node.tx), node.outputIndex)`).  All
branches run; the first error is the one `Promise.all` rejects with; the
shared `seenNodes` set is threaded left to right. -/
def runChildren (env : Env)
    (step : GASPNode → Option Chars → Seen → Except Err Unit × List Event × Seen)
    (node : GASPNode) : List (Chars × Bool) → Seen →
      Option Err × List Event × Seen
  | [], seen => (none, [], seen)
  | (outpoint, metadata) :: rest, seen =>
    let d := deconstruct36ByteStructure outpoint
    match env.requestNode d.1 d.2 metadata with
    | none =>
      let r := runChildren env step node rest seen
      (some Err.remoteFailed, Event.requestNode d.1 d.2 :: r.2.1, r.2.2)
    | some newNode =>
      let sb := compute36ByteStructure (env.computeTXID node.tx) node.outputIndex
      let c := step newNode (some sb) seen
      let r := runChildren env step node rest c.2.2
      ((match c.1 with | .error e => some e | .ok _ => r.1),
       Event.requestNode d.1 d.2 :: (c.2.1 ++ r.2.1), r.2.2)

/-- Legacy `GASP.processIncomingNode` (fuelled). -/
def processIncomingNode (env : Env) : Nat → GASPNode → Option Chars → Seen →
    Except Err Unit × List Event × Seen
  | 0, _, _, seen => (.error .outOfFuel, [], seen)
  | fuel + 1, node, spentBy, seen =>
    if nodeKey node ∈ seen then (.ok (), [], seen)
    else
      let seen1 := nodeKey node :: seen
      if env.appendOk node spentBy then
        let c := runChildren env (fun n sb s => processIncomingNode env fuel n sb s)
          node (env.findNeededInputs node) seen1
        let tr0 := Event.appendToGraph node.tx node.outputIndex node.graphID spentBy ::
          Event.findNeededInputs node.tx node.outputIndex :: c.2.1
        match c.1 with
        | some e => (.error e, tr0, c.2.2)
        | none =>
          match spentBy with
          | some _ => (.ok (), tr0, c.2.2)
          | none =>
            if env.validateOk node.graphID then
              (.ok (), tr0 ++ [Event.validateGraphAnchor node.graphID,
                Event.finalizeGraph node.graphID], c.2.2)
            else
              (.error (if env.discardOk node.graphID then Err.validateFailed
                 else Err.discardFailed),
               tr0 ++ [Event.validateGraphAnchor node.graphID,
                 Event.discardGraph node.graphID], c.2.2)
      else
        (.error (if env.discardOk node.graphID then Err.appendFailed
           else Err.discardFailed),
         [Event.appendToGraph node.tx node.outputIndex node.graphID spentBy,
          Event.discardGraph node.graphID], seen1)

/-! ## Outgoing-node processing (legacy `GASP.processOutgoingNode`) -/

/-- Fan-out over the peer's `requestedInputs` in `processOutgoingNode`:
hydrate each requested input locally and recurse. -/
def runOutChildren (env : Env)
    (step : GASPNode → Seen → Except Err Unit × List Event × Seen) :
    List (Chars × Bool) → Seen → Option Err × List Event × Seen
  | [], seen => (none, [], seen)
  | (outpoint, _metadata) :: rest, seen =>
    let d := deconstruct36ByteStructure outpoint
    let c := step (env.hydrateGASPNode d.1 d.2) seen
    let r := runOutChildren env step rest c.2.2
    ((match c.1 with | .error e => some e | .ok _ => r.1),
     Event.hydrate d.1 d.2 :: (c.2.1 ++ r.2.1), r.2.2)

/-- Legacy `GASP.processOutgoingNode` (fuelled).  In the legacy interface
`remote.submitNode` always yields a `GASPNodeResponse`
(`env.submitResp`). -/
def processOutgoingNode (env : Env) : Nat → GASPNode → Seen →
    Except Err Unit × List Event × Seen
  | 0, _, seen => (.error .outOfFuel, [], seen)
  | fuel + 1, node, seen =>
    if nodeKey node ∈ seen then (.ok (), [], seen)
    else
      let seen1 := nodeKey node :: seen
      let c := runOutChildren env (fun n s => processOutgoingNode env fuel n s)
        (env.submitResp node) seen1
      ((match c.1 with | some e => .error e | none => .ok ()),
       Event.submitNode node.tx node.outputIndex :: c.2.1, c.2.2)

/-! ## Handshake and session (legacy `GASP.sync` and friends) -/

structure GASPInitialRequest where
  version : Nat
  UTXOBloom : Chars
  deriving Repr, DecidableEq

/-- The payload of `GASPVersionMismatchError` (code
`ERR_GASP_VERSION_MISMATCH`). -/
structure VersionMismatchError where
  currentVersion : Nat
  foreignVersion : Nat
  deriving Repr, DecidableEq

/-- `GASP.getSyncUTXOsForFilter(filter)`: list the known UTXOs, hydrate
every one not (probably) in the filter.  Returns the hydrated nodes and the
Storage events of this side. -/
def getSyncUTXOsForFilterE (env : Env) (filter : Chars) :
    List GASPNode × List Event :=
  let keep := env.knownUTXOs.filter fun p => checkFilterExclusion filter p.1 p.2
  (keep.map fun p => env.hydrateGASPNode p.1 p.2,
   Event.findKnownUTXOs :: keep.map fun p => Event.hydrate p.1 p.2)

/-- `GASP.buildInitialRequest()`. -/
def buildInitialRequest (env : Env) (version : Nat) :
    GASPInitialRequest × List Event :=
  ({ version := version, UTXOBloom := calculateBloomFilter env.knownUTXOs },
   [Event.findKnownUTXOs])

/-- `GASP.buildInitialResponse(request)`: fail with
`GASPVersionMismatchError` when the versions disagree (before touching
Storage), otherwise answer with the UTXOs missing from the request's
filter. -/
def buildInitialResponse (env : Env) (version : Nat) (req : GASPInitialRequest) :
    Except VersionMismatchError (List GASPNode) × List Event :=
  if req.version ≠ version then (.error ⟨version, req.version⟩, [])
  else
    let r := getSyncUTXOsForFilterE env req.UTXOBloom
    (.ok r.1, r.2)

/-- The pull half of legacy `sync`: `Promise.all` over the initial response,
each tip processed by `processIncomingNode(remote)` — i.e. with
`spentBy = none` and a fresh empty `seenNodes` set.  There is no per-graph
catch in the legacy code: the first rejection propagates (after all branches
ran). -/
def pullAll (env : Env) (fuel : Nat) : List GASPNode → Option Err × List Event
  | [] => (none, [])
  | n :: rest =>
    let c := processIncomingNode env fuel n none []
    let r := pullAll env fuel rest
    ((match c.1 with | .error e => some e | .ok _ => r.1), c.2.1 ++ r.2)

/-- The push half of legacy `sync`: `Promise.all` over the filtered local
UTXOs, each pushed by `processOutgoingNode(sync)` with a fresh seen set. -/
def pushAll (env : Env) (fuel : Nat) : List GASPNode → Option Err × List Event
  | [] => (none, [])
  | n :: rest =>
    let c := processOutgoingNode env fuel n []
    let r := pushAll env fuel rest
    ((match c.1 with | .error e => some e | .ok _ => r.1), c.2.1 ++ r.2)

/-- Legacy `GASP.sync()` between two engine-backed peers, initiated by side
A.  The abstract `remote` of A is implemented by engine B:
`remote.getInitialResponse` is B's `buildInitialResponse` and
`remote.getFilter` yields the bloom filter of B's known UTXOs (as the test
mocks wire it).  Both constructors set `version = 1`.  Returns A's result,
A's Storage/Remote trace and B's Storage trace (B's serving of
`requestNode`/`submitNode` is abstract in `env`, so only its handshake
events appear in B's trace). -/
def syncLegacy (envA envB : Env) (fuel : Nat) :
    Except Err Unit × List Event × List Event :=
  let reqA := buildInitialRequest envA 1
  match buildInitialResponse envB 1 reqA.1 with
  | (.error e, trB) =>
    (.error (Err.versionMismatch e.currentVersion e.foreignVersion), reqA.2, trB)
  | (.ok nodes, trB) =>
    let pull := pullAll envA fuel nodes
    match pull.1 with
    | some e => (.error e, reqA.2 ++ pull.2, trB)
    | none =>
      let filterB := calculateBloomFilter envB.knownUTXOs
      let push0 := getSyncUTXOsForFilterE envA filterB
      let push := pushAll envA fuel push0.1
      ((match push.1 with | some e => .error e | none => .ok ()),
       reqA.2 ++ pull.2 ++ push0.2 ++ push.2, trB)

/-! ## Trace observations -/

def isValidateOrFinalize : Event → Bool
  | .validateGraphAnchor _ => true
  | .finalizeGraph _ => true
  | _ => false

/-- Storage mutations the idempotent-no-op claim forbids. -/
def isGraphMutation : Event → Bool
  | .appendToGraph _ _ _ _ => true
  | .finalizeGraph _ => true
  | .discardGraph _ => true
  | _ => false

def isAppendOf (p : NodeKey) : Event → Bool
  | .appendToGraph t i _ _ => decide ((t, i) = p)
  | _ => false

def isRequestOf (p : NodeKey) : Event → Bool
  | .requestNode t i => decide ((t, i) = p)
  | _ => false

/-- Number of `appendToGraph` invocations for the node identity `p`. -/
def countAppend (tr : List Event) (p : NodeKey) : Nat :=
  (tr.filter (isAppendOf p)).length

/-- Number of `remote.requestNode` invocations for the node identity `p`. -/
def countRequest (tr : List Event) (p : NodeKey) : Nat :=
  (tr.filter (isRequestOf p)).length

/-- How many entries of the finite identity universe `U` are not yet in the
seen set (duplicates in `U` counted; an over-approximation is harmless for
the fuel bound). -/
def missing (U : List NodeKey) (seen : Seen) : Nat :=
  (U.filter fun p => ! decide (p ∈ seen)).length

end GASP

namespace GASP.SpecModel

/-! ## Spec-modelled evolved engine

The test suite `src/src/__tests/GASP.test.ts` and the API documentation in
the repository describe an evolved `GASP.ts` (four-argument constructor,
`submitNode` returning `GASPNodeResponse | void`, per-graph error handling
in `sync`) whose source file is not under `src/`.  The definitions in this
namespace are modelled from the spec (§4.1.2–§4.1.4, §7): per-graph
failures are caught, logged, and answered with a best-effort
`discardGraph`; only a version mismatch is session-fatal. -/

open GASP

/-- Modelled from the spec (§7): "`discardGraph` itself is best-effort;
errors from it are swallowed after logging."  The invocation is recorded;
when the oracle fails, the failure is logged and execution continues. -/
def discardBestEffort (env : Env) (g : Chars) : List Event :=
  if env.discardOk g then [Event.discardGraph g]
  else [Event.discardGraph g, Event.logDiscardFailed g]

/-- Modelled from the spec (§4.1.3 with the §7 discard policy): incoming-node
processing of the evolved engine.  Identical to the legacy
`processIncomingNode` except that a failing `discardGraph` in a catch block
is swallowed after logging, so the error propagated for the graph is the
original `appendFailed`/`validateFailed` error. -/
def processIncomingNode (env : Env) : Nat → GASPNode → Option Chars → Seen →
    Except Err Unit × List Event × Seen
  | 0, _, _, seen => (.error .outOfFuel, [], seen)
  | fuel + 1, node, spentBy, seen =>
    if nodeKey node ∈ seen then (.ok (), [], seen)
    else
      let seen1 := nodeKey node :: seen
      if env.appendOk node spentBy then
        let c := runChildren env
          (fun n sb s => processIncomingNode env fuel n sb s)
          node (env.findNeededInputs node) seen1
        let tr0 := Event.appendToGraph node.tx node.outputIndex node.graphID spentBy ::
          Event.findNeededInputs node.tx node.outputIndex :: c.2.1
        match c.1 with
        | some e => (.error e, tr0, c.2.2)
        | none =>
          match spentBy with
          | some _ => (.ok (), tr0, c.2.2)
          | none =>
            if env.validateOk node.graphID then
              (.ok (), tr0 ++ [Event.validateGraphAnchor node.graphID,
                Event.finalizeGraph node.graphID], c.2.2)
            else
              (.error Err.validateFailed,
               tr0 ++ Event.validateGraphAnchor node.graphID ::
                 discardBestEffort env node.graphID, c.2.2)
      else
        (.error Err.appendFailed,
         Event.appendToGraph node.tx node.outputIndex node.graphID spentBy ::
           discardBestEffort env node.graphID, seen1)

/-- Modelled from the spec (§4.1.4): outgoing-node processing of the evolved
engine, where `remote.submitNode` may fail, may return no `NodeResponse`
(`none`: "the peer needs nothing further for this branch; return"), or may
request further inputs. -/
def processOutgoingNode (env : Env) : Nat → GASPNode → Seen →
    Except Err Unit × List Event × Seen
  | 0, _, seen => (.error .outOfFuel, [], seen)
  | fuel + 1, node, seen =>
    if nodeKey node ∈ seen then (.ok (), [], seen)
    else
      let seen1 := nodeKey node :: seen
      match env.submitNodeEv node with
      | .error e => (.error e, [Event.submitNode node.tx node.outputIndex], seen1)
      | .ok none => (.ok (), [Event.submitNode node.tx node.outputIndex], seen1)
      | .ok (some entries) =>
        let c := runOutChildren env (fun n s => processOutgoingNode env fuel n s)
          entries seen1
        ((match c.1 with | some e => .error e | none => .ok ()),
         Event.submitNode node.tx node.outputIndex :: c.2.1, c.2.2)

/-- Modelled from the spec (§4.1.2 step 3, §7): the pull phase of the
evolved `sync`.  Each tip of the initial response is processed with
`spentBy = none` and a fresh seen set; a failure is caught per graph — the
error is logged, the graph discarded best-effort, and the other graphs
continue — unless it is a version mismatch, which is session-fatal. -/
def pullPhase (env : Env) (fuel : Nat) : List GASPNode → Except Err Unit × List Event
  | [] => (.ok (), [])
  | n :: rest =>
    let c := processIncomingNode env fuel n none []
    match c.1 with
    | .ok _ =>
      let r := pullPhase env fuel rest
      (r.1, c.2.1 ++ r.2)
    | .error (Err.versionMismatch cv fv) =>
      (.error (Err.versionMismatch cv fv), c.2.1)
    | .error e =>
      let r := pullPhase env fuel rest
      (r.1, c.2.1 ++ Event.logError e :: discardBestEffort env n.graphID ++ r.2)

/-- Modelled from the spec (§7): the push phase of the evolved `sync`;
outgoing-phase errors are logged and abandon only their own branch. -/
def pushPhase (env : Env) (fuel : Nat) : List GASPNode → List Event
  | [] => []
  | n :: rest =>
    let c := processOutgoingNode env fuel n []
    (match c.1 with
     | .ok _ => c.2.1
     | .error e => c.2.1 ++ [Event.logError e]) ++ pushPhase env fuel rest

/-- Modelled from the spec (§4.1.2): the evolved `sync()`.  The handshake
outcome is the oracle `env.initialTips`; the pull phase then the push phase
run with per-graph error containment. -/
def sync (env : Env) (fuel : Nat) : Except Err Unit × List Event :=
  match env.initialTips with
  | .error e => (.error e, [])
  | .ok tips =>
    let p := pullPhase env fuel tips
    match p.1 with
    | .error e => (.error e, p.2)
    | .ok _ => (.ok (), p.2 ++ pushPhase env fuel env.pushList)

end GASP.SpecModel

namespace GASP

/-! ## Concrete environments for witnesses and counterexamples -/

/-- A plain hydration oracle: the node for `(txid, i)` carries `txid` as its
raw transaction and its own outpoint as graph ID. -/
def plainHydrate : Chars → Nat → GASPNode :=
  fun t i => { graphID := t, tx := t, outputIndex := i }

def tipNodeT : GASPNode := { graphID := ['g'], tx := ['t'], outputIndex := 0 }

def childNodeC : GASPNode := { graphID := ['g'], tx := ['c'], outputIndex := 0 }

def tipNodeP : GASPNode := { graphID := ['p'], tx := ['a'], outputIndex := 0 }

def tipNodeQ : GASPNode := { graphID := ['q'], tx := ['b'], outputIndex := 0 }

/-- Every storage operation succeeds; the remote always answers a request
with the child node `C`; both the tip `T` and `C` list the same outpoint
`"c:0"` among their needed inputs (a cycle at `C`). -/
def envLoop : Env where
  knownUTXOs := []
  hydrateGASPNode := plainHydrate
  findNeededInputs := fun _ => [(['c', ':', '0'], true)]
  appendOk := fun _ _ => true
  validateOk := fun _ => true
  discardOk := fun _ => true
  computeTXID := fun t => t
  requestNode := fun _ _ _ => some childNodeC
  submitResp := fun _ => []
  submitNodeEv := fun _ => .ok none
  initialTips := .ok []
  pushList := []

/-- A session whose initial response holds two tips: graph `p` fails anchor
validation, graph `q` validates. -/
def envPartial : Env where
  knownUTXOs := []
  hydrateGASPNode := plainHydrate
  findNeededInputs := fun _ => []
  appendOk := fun _ _ => true
  validateOk := fun g => g == ['q']
  discardOk := fun _ => true
  computeTXID := fun t => t
  requestNode := fun _ _ _ => none
  submitResp := fun _ => []
  submitNodeEv := fun _ => .ok none
  initialTips := .ok [tipNodeP, tipNodeQ]
  pushList := []

/-- Storage where both `appendToGraph`/`validateGraphAnchor` and
`discardGraph` fail. -/
def envFailing : Env where
  knownUTXOs := []
  hydrateGASPNode := plainHydrate
  findNeededInputs := fun _ => []
  appendOk := fun _ _ => false
  validateOk := fun _ => false
  discardOk := fun _ => false
  computeTXID := fun t => t
  requestNode := fun _ _ _ => none
  submitResp := fun _ => []
  submitNodeEv := fun _ => .ok none
  initialTips := .ok []
  pushList := []

/-- Storage where appends succeed but anchors never validate and
`discardGraph` fails. -/
def envBadAnchor : Env where
  knownUTXOs := []
  hydrateGASPNode := plainHydrate
  findNeededInputs := fun _ => []
  appendOk := fun _ _ => true
  validateOk := fun _ => false
  discardOk := fun _ => false
  computeTXID := fun t => t
  requestNode := fun _ _ _ => none
  submitResp := fun _ => []
  submitNodeEv := fun _ => .ok none
  initialTips := .ok []
  pushList := []

/-- A peer that already knows the single UTXO `("x", 0)`. -/
def envKnownX : Env where
  knownUTXOs := [(['x'], 0)]
  hydrateGASPNode := plainHydrate
  findNeededInputs := fun _ => []
  appendOk := fun _ _ => true
  validateOk := fun _ => true
  discardOk := fun _ => true
  computeTXID := fun t => t
  requestNode := fun _ _ _ => none
  submitResp := fun _ => []
  submitNodeEv := fun _ => .ok none
  initialTips := .ok []
  pushList := []

end GASP

namespace GASP

/-! ## Lemmas about the string primitives -/

theorem jsSplit_ne_nil (sep : Char) (s : Chars) : jsSplit sep s ≠ [] := by
  cases s with
  | nil => simp [jsSplit]
  | cons c cs =>
    simp only [jsSplit]
    split
    · simp
    · cases h : jsSplit sep cs <;> simp

theorem jsSplit_no_sep {sep : Char} {s : Chars} (h : sep ∉ s) :
    jsSplit sep s = [s] := by
  induction s with
  | nil => rfl
  | cons c cs ih =>
    simp only [List.mem_cons, not_or] at h
    simp only [jsSplit]
    rw [if_neg (fun hc => h.1 hc.symm), ih h.2]

theorem jsSplit_append {sep : Char} {a : Chars} (b : Chars) (h : sep ∉ a) :
    jsSplit sep (a ++ sep :: b) = a :: jsSplit sep b := by
  induction a with
  | nil => simp [jsSplit]
  | cons c cs ih =>
    simp only [List.mem_cons, not_or] at h
    simp only [List.cons_append, jsSplit, List.append_eq]
    rw [if_neg (fun hc => h.1 hc.symm), ih h.2]

theorem digit_facts : ∀ d < 10, (digitChar d).isDigit = true ∧
    digitVal (digitChar d) = d ∧ digitChar d ≠ ':' := by decide

theorem natDigitsAux_ne_nil {fuel n : Nat} (h : n < fuel) :
    natDigitsAux fuel n ≠ [] := by
  cases fuel with
  | zero => omega
  | succ f =>
    simp only [natDigitsAux]
    split
    · simp
    · simp

theorem natDigitsAux_digits {fuel n : Nat} (h : n < fuel) :
    ∀ c ∈ natDigitsAux fuel n, c.isDigit = true := by
  induction fuel generalizing n with
  | zero => omega
  | succ f ih =>
    intro c hc
    simp only [natDigitsAux] at hc
    by_cases h10 : n < 10
    · rw [if_pos h10] at hc
      simp only [List.mem_singleton] at hc
      subst hc
      exact (digit_facts n h10).1
    · rw [if_neg h10] at hc
      rcases List.mem_append.1 hc with h1 | h2
      · exact ih (by omega) c h1
      · simp only [List.mem_singleton] at h2
        subst h2
        exact (digit_facts (n % 10) (Nat.mod_lt _ (by omega))).1

theorem natDigits_digits (n : Nat) : ∀ c ∈ natDigits n, c.isDigit = true :=
  natDigitsAux_digits (Nat.lt_succ_self n)

theorem natDigits_no_colon (n : Nat) : ':' ∉ natDigits n := by
  intro hmem
  have := natDigits_digits n ':' hmem
  simp [Char.isDigit] at this

theorem parseIntGo_append_digits {xs : Chars} (hd : ∀ c ∈ xs, c.isDigit = true)
    (acc : Nat) (ys : Chars) :
    parseIntGo acc (xs ++ ys) = parseIntGo (parseIntGo acc xs) ys := by
  induction xs generalizing acc with
  | nil => rfl
  | cons c cs ih =>
    simp only [List.cons_append, parseIntGo]
    rw [if_pos (hd c (List.mem_cons_self _ _)), if_pos (hd c (List.mem_cons_self _ _))]
    apply ih
    intro x hx
    exact hd x (List.mem_cons_of_mem _ hx)

theorem parseIntGo_natDigitsAux {fuel n : Nat} (h : n < fuel) (acc : Nat) :
    parseIntGo acc (natDigitsAux fuel n) =
      acc * 10 ^ (natDigitsAux fuel n).length + n := by
  induction fuel generalizing n acc with
  | zero => omega
  | succ f ih =>
    simp only [natDigitsAux]
    by_cases h10 : n < 10
    · rw [if_pos h10]
      simp only [parseIntGo, (digit_facts n h10).1, if_true, (digit_facts n h10).2.1,
        List.length_cons, List.length_nil, Nat.zero_add, pow_one]
      omega
    · rw [if_neg h10]
      have hdiv : n / 10 < f := by
        have h1 : n / 10 < n := Nat.div_lt_self (by omega) (by omega)
        omega
      have hm : n % 10 < 10 := Nat.mod_lt _ (by omega)
      have key : parseIntGo acc (natDigitsAux f (n / 10) ++ [digitChar (n % 10)]) =
          10 * (acc * 10 ^ (natDigitsAux f (n / 10)).length + n / 10) + n % 10 := by
        rw [parseIntGo_append_digits (natDigitsAux_digits hdiv) acc _, ih hdiv acc]
        simp [parseIntGo, (digit_facts _ hm).1, (digit_facts _ hm).2.1]
      rw [key]
      simp only [List.length_append, List.length_cons, List.length_nil, Nat.zero_add,
        pow_succ]
      rw [← mul_assoc]
      generalize acc * 10 ^ (natDigitsAux f (n / 10)).length = Q
      omega

theorem jsParseInt_natDigits (n : Nat) : jsParseInt (natDigits n) = n := by
  have := parseIntGo_natDigitsAux (Nat.lt_succ_self n) 0
  simpa [jsParseInt, natDigits] using this

theorem parseIntGo_replicate_zero (k : Nat) (s : Chars) :
    parseIntGo 0 (List.replicate k '0' ++ s) = parseIntGo 0 s := by
  induction k with
  | zero => rfl
  | succ m ih =>
    simp only [List.replicate_succ, List.cons_append, parseIntGo]
    norm_num [digitVal]
    exact ih

theorem jsParseInt_padStart4 (n : Nat) :
    jsParseInt (padStart4 (natDigits n)) = n := by
  unfold padStart4
  rw [jsParseInt, parseIntGo_replicate_zero]
  exact jsParseInt_natDigits n

theorem padStart4_no_colon (n : Nat) : ':' ∉ padStart4 (natDigits n) := by
  intro h
  rcases List.mem_append.1 h with h1 | h2
  · have := List.eq_of_mem_replicate h1
    simp at this
  · exact natDigits_no_colon n h2

/-- **C6.** Decoding the 36-byte outpoint form produced by encoding a valid
txid (a string with no `':'`, as every 64-hex-character txid is) and an
output index returns the original pair. -/
theorem c6_outpoint_roundtrip (txid : Chars) (index : Nat) (h : ':' ∉ txid) :
    deconstruct36ByteStructure (compute36ByteStructure txid index) =
      (txid, index) := by
  unfold compute36ByteStructure deconstruct36ByteStructure
  rw [jsSplit_append _ h, jsSplit_no_sep (padStart4_no_colon index)]
  simp [jsParseInt_padStart4]

/-- Witness for C6 at a concrete valid input. -/
theorem c6_outpoint_roundtrip_witness :
    deconstruct36ByteStructure
      (compute36ByteStructure ['a', 'b', 'c'] 7) = (['a', 'b', 'c'], 7) :=
  c6_outpoint_roundtrip ['a', 'b', 'c'] 7 (by decide)

/-- **C5 counterexample.** A UTXO with timestamp `0` is returned for
`since = 1` although its timestamp is neither absent nor greater than `1`:
the implementation disagrees with the claim's exact-set description. -/
theorem c5_counterexample :
    findKnownUTXOs [⟨['a'], 0, some 0⟩] 1 = [(['a'], 0)] ∧
      findKnownUTXOsClaimed [⟨['a'], 0, some 0⟩] 1 = [] ∧
      findKnownUTXOs [⟨['a'], 0, some 0⟩] 1 ≠
        findKnownUTXOsClaimed [⟨['a'], 0, some 0⟩] 1 := by
  refine ⟨rfl, rfl, ?_⟩
  decide

/-- **C5 (amended).** `findKnownUTXOs(s)` returns exactly the outpoints of
the UTXOs whose timestamp is strictly greater than `s` together with the
outpoints of every UTXO whose timestamp is absent or zero (JS-falsy), and
nothing else. -/
theorem c5_findKnownUTXOs_amended (store : List StoredUTXO) (since : Nat) :
    findKnownUTXOs store since = findKnownUTXOsAmended store since := by
  unfold findKnownUTXOs findKnownUTXOsAmended
  congr 1
  apply List.filter_congr
  intro x _
  cases h : x.time with
  | none => simp [jsTimeFalsy, h]
  | some t =>
    simp only [jsTimeFalsy, h]
    by_cases h0 : t = 0 <;> simp [h0]

/-! ## Claim C3: version fatality of the initial response -/

/-- **C3.** When the initial request's version differs from the engine's
version, `buildInitialResponse` fails with a `GASPVersionMismatchError`
whose `currentVersion` is the engine's version and whose `foreignVersion`
is the request's version, and its trace is empty: no Storage operation is
invoked before (or after) the failure. -/
theorem c3_version_mismatch (env : Env) (version : Nat) (req : GASPInitialRequest)
    (h : req.version ≠ version) :
    buildInitialResponse env version req =
      (.error ⟨version, req.version⟩, []) := by
  simp [buildInitialResponse, h]

/-- Witness for C3: a version-2 request against a version-1 engine. -/
theorem c3_version_mismatch_witness :
    buildInitialResponse envKnownX 1 ⟨2, []⟩ = (.error ⟨1, 2⟩, []) :=
  c3_version_mismatch envKnownX 1 ⟨2, []⟩ (by decide)

/-! ## Claim C10: the seen-set guards before `appendToGraph` and is
per-top-level-call -/

/-- **C10.** (i) A node whose identity is already in the `seenNodes` set
returns immediately: no Storage or Remote event at all and the seen set
unchanged — regardless of why the identity is there, in particular also
when its first occurrence's `appendToGraph` failed, since (iii) the
identity is inserted before `appendToGraph` is attempted, so it is in the
final seen set even when the append failed.  (ii) The pull phase starts
every top-level graph from a fresh empty seen set, so processing the same
tip twice repeats the full trace: deduplication does not extend across
top-level graphs. -/
theorem c10_seen_set_guard (env : Env) (fuel : Nat) (node : GASPNode)
    (spentBy : Option Chars) (seen : Seen) (h : nodeKey node ∈ seen) :
    processIncomingNode env (fuel + 1) node spentBy seen = (.ok (), [], seen) ∧
    (pullAll env fuel [node, node]).2 =
      (processIncomingNode env fuel node none []).2.1 ++
        (processIncomingNode env fuel node none []).2.1 ∧
    (env.appendOk node spentBy = false →
      nodeKey node ∈ (processIncomingNode env (fuel + 1) node spentBy []).2.2) := by
  refine ⟨?_, ?_, ?_⟩
  · simp [processIncomingNode, h]
  · simp [pullAll]
  · intro happ
    simp [processIncomingNode, happ]

/-- Witness for C10: the identity of `T` is already seen, and with a
failing `appendToGraph` the identity still lands in the seen set. -/
theorem c10_seen_set_guard_witness :
    processIncomingNode envFailing 2 tipNodeT none [(['t'], 0)] =
      (.ok (), [], [(['t'], 0)]) ∧
    nodeKey tipNodeT ∈ (processIncomingNode envFailing 2 tipNodeT none []).2.2 := by
  have h := c10_seen_set_guard envFailing 1 tipNodeT none [(['t'], 0)] (by decide)
  exact ⟨h.1, h.2.2 rfl⟩

/-! ## Claim C1: finalize only after successful validation, at the tip -/

/-- Fan-out preserves "no validate/finalize event" when every (necessarily
`spentBy = some _`) recursive call does. -/
theorem runChildren_noVF (env : Env)
    (step : GASPNode → Option Chars → Seen → Except Err Unit × List Event × Seen)
    (hstep : ∀ n sb s, ∀ e ∈ (step n (some sb) s).2.1, isValidateOrFinalize e = false)
    (node : GASPNode) :
    ∀ (l : List (Chars × Bool)) (seen : Seen),
      ∀ e ∈ (runChildren env step node l seen).2.1, isValidateOrFinalize e = false := by
  intro l
  induction l with
  | nil =>
    intro seen e he
    simp [runChildren] at he
  | cons hd rest ih =>
    intro seen e he
    obtain ⟨op, md⟩ := hd
    simp only [runChildren] at he
    rcases hreq : env.requestNode (deconstruct36ByteStructure op).1
        (deconstruct36ByteStructure op).2 md with _ | newNode
    all_goals rw [hreq] at he
    · rcases List.mem_cons.1 he with h1 | h2
      · subst h1; rfl
      · exact ih _ e h2
    · rcases List.mem_cons.1 he with h1 | h2
      · subst h1; rfl
      · rcases List.mem_append.1 h2 with h3 | h4
        · exact hstep _ _ _ e h3
        · exact ih _ e h4

/-- A recursive (non-tip) call of `processIncomingNode` — one with
`spentBy = some _` — never emits `validateGraphAnchor` or
`finalizeGraph`. -/
theorem processIncomingNode_some_noVF (env : Env) :
    ∀ (fuel : Nat) (node : GASPNode) (sb : Chars) (seen : Seen),
      ∀ e ∈ (processIncomingNode env fuel node (some sb) seen).2.1,
        isValidateOrFinalize e = false := by
  intro fuel
  induction fuel with
  | zero =>
    intro node sb seen e he
    simp [processIncomingNode] at he
  | succ f ih =>
    intro node sb seen e he
    simp only [processIncomingNode] at he
    by_cases hmem : nodeKey node ∈ seen
    · rw [if_pos hmem] at he
      simp at he
    · rw [if_neg hmem] at he
      by_cases happ : env.appendOk node (some sb)
      · rw [if_pos happ] at he
        have hch := runChildren_noVF env
          (fun n sb' s => processIncomingNode env f n sb' s)
          (fun n sb' s => ih n sb' s) node (env.findNeededInputs node)
          (nodeKey node :: seen)
        rcases hreq : (runChildren env
            (fun n sb' s => processIncomingNode env f n sb' s)
            node (env.findNeededInputs node) (nodeKey node :: seen)).1 with _ | err
        all_goals rw [hreq] at he
        · rcases List.mem_cons.1 he with h1 | h2
          · subst h1; rfl
          · rcases List.mem_cons.1 h2 with h3 | h4
            · subst h3; rfl
            · exact hch e h4
        · rcases List.mem_cons.1 he with h1 | h2
          · subst h1; rfl
          · rcases List.mem_cons.1 h2 with h3 | h4
            · subst h3; rfl
            · exact hch e h4
      · rw [if_neg happ] at he
        rcases List.mem_cons.1 he with h1 | h2
        · subst h1; rfl
        · rcases List.mem_cons.1 h2 with h3 | h4
          · subst h3; rfl
          · simp at h4

/-- **C1.** (i) Recursive calls (`spentBy = some _`) never invoke
`validateGraphAnchor` or `finalizeGraph`.  (ii) The trace of the tip call
(`spentBy = none`, fresh seen set) splits into a prefix without any
validate/finalize event followed by a suffix that is: `[validate, finalize]`
with a successful validation oracle when the run succeeds; empty when the
run failed before reaching the tip step; or `[validate, discard]` with a
failing validation oracle.  Hence `finalizeGraph(g)` happens only after a
successful `validateGraphAnchor(g)`, `validateGraphAnchor` is invoked at
most once per top-level graph — exactly once unless the graph failed before
the recursion unwound — always at the tip call, after all recursive child
processing. -/
theorem c1_finalize_only_after_validate (env : Env) (fuel : Nat) (node : GASPNode) :
    (∀ (sb : Chars) (seen : Seen),
      ∀ e ∈ (processIncomingNode env fuel node (some sb) seen).2.1,
        isValidateOrFinalize e = false) ∧
    (∃ pre suf,
      (processIncomingNode env fuel node none []).2.1 = pre ++ suf ∧
      (∀ e ∈ pre, isValidateOrFinalize e = false) ∧
      (((processIncomingNode env fuel node none []).1 = .ok () ∧
          env.validateOk node.graphID = true ∧
          suf = [Event.validateGraphAnchor node.graphID,
            Event.finalizeGraph node.graphID]) ∨
       ((∃ e, (processIncomingNode env fuel node none []).1 = .error e) ∧
          suf = []) ∨
       ((∃ e, (processIncomingNode env fuel node none []).1 = .error e) ∧
          env.validateOk node.graphID = false ∧
          suf = [Event.validateGraphAnchor node.graphID,
            Event.discardGraph node.graphID]))) := by
  constructor
  · intro sb seen
    exact processIncomingNode_some_noVF env fuel node sb seen
  · cases fuel with
    | zero =>
      exact ⟨[], [], rfl, by simp, Or.inr (Or.inl ⟨⟨.outOfFuel, rfl⟩, rfl⟩)⟩
    | succ f =>
      simp only [processIncomingNode, List.not_mem_nil, if_false]
      by_cases happ : env.appendOk node none = true
      · rw [if_pos happ]
        have hch := runChildren_noVF env
          (fun n sb' s => processIncomingNode env f n sb' s)
          (fun n sb' s => processIncomingNode_some_noVF env f n sb' s)
          node (env.findNeededInputs node) [nodeKey node]
        rcases hreq : (runChildren env
            (fun n sb' s => processIncomingNode env f n sb' s)
            node (env.findNeededInputs node) [nodeKey node]).1 with _ | err
        all_goals simp only [hreq]
        · by_cases hval : env.validateOk node.graphID = true
          · rw [if_pos hval]
            refine ⟨_, _, rfl, ?_, Or.inl ⟨rfl, hval, rfl⟩⟩
            intro e he
            rcases List.mem_cons.1 he with h1 | h2
            · subst h1; rfl
            · rcases List.mem_cons.1 h2 with h3 | h4
              · subst h3; rfl
              · exact hch e h4
          · rw [if_neg hval]
            refine ⟨_, _, rfl, ?_, Or.inr (Or.inr ⟨⟨_, rfl⟩, by simpa using hval, rfl⟩)⟩
            intro e he
            rcases List.mem_cons.1 he with h1 | h2
            · subst h1; rfl
            · rcases List.mem_cons.1 h2 with h3 | h4
              · subst h3; rfl
              · exact hch e h4
        · refine ⟨_, [], (List.append_nil _).symm, ?_, Or.inr (Or.inl ⟨⟨err, rfl⟩, rfl⟩)⟩
          intro e he
          rcases List.mem_cons.1 he with h1 | h2
          · subst h1; rfl
          · rcases List.mem_cons.1 h2 with h3 | h4
            · subst h3; rfl
            · exact hch e h4
      · rw [if_neg happ]
        refine ⟨_, [], (List.append_nil _).symm, ?_, Or.inr (Or.inl ⟨⟨_, rfl⟩, rfl⟩)⟩
        intro e he
        rcases List.mem_cons.1 he with h1 | h2
        · subst h1; rfl
        · rcases List.mem_cons.1 h2 with h3 | h4
          · subst h3; rfl
          · simp at h4

/-! ## Error classification of the spec-modelled incoming processing
(shared by claims C2 and C9) -/

/-- Errors coming out of the fan-out are the ones of the recursive calls or
a Remote `requestNode` failure. -/
theorem runChildren_err (env : Env)
    (step : GASPNode → Option Chars → Seen → Except Err Unit × List Event × Seen)
    (node : GASPNode) (P : Err → Prop) (hrem : P Err.remoteFailed)
    (hstep : ∀ n sb s e, (step n (some sb) s).1 = .error e → P e) :
    ∀ (l : List (Chars × Bool)) (seen : Seen) (e : Err),
      (runChildren env step node l seen).1 = some e → P e := by
  intro l
  induction l with
  | nil =>
    intro seen e he
    simp [runChildren] at he
  | cons hd rest ih =>
    intro seen e he
    obtain ⟨op, md⟩ := hd
    simp only [runChildren] at he
    rcases hreq : env.requestNode (deconstruct36ByteStructure op).1
        (deconstruct36ByteStructure op).2 md with _ | newNode
    all_goals simp only [hreq] at he
    · simp only [Option.some.injEq] at he
      subst he
      exact hrem
    · rcases hrun : (step newNode
          (some (compute36ByteStructure (env.computeTXID node.tx) node.outputIndex))
          seen).1 with err | u
      all_goals simp only [hrun] at he
      · simp only [Option.some.injEq] at he
        subst he
        exact hstep _ _ _ _ hrun
      · exact ih _ e he

/-- Every error the spec-modelled `processIncomingNode` can produce is a
per-graph one: append failure, validation failure, Remote failure or fuel
exhaustion — never a `discardGraph` failure and never a version
mismatch. -/
theorem specIncoming_err_cases (env : Env) :
    ∀ (fuel : Nat) (node : GASPNode) (sb : Option Chars) (seen : Seen) (e : Err),
      (SpecModel.processIncomingNode env fuel node sb seen).1 = .error e →
      e = .appendFailed ∨ e = .validateFailed ∨ e = .remoteFailed ∨ e = .outOfFuel := by
  intro fuel
  induction fuel with
  | zero =>
    intro node sb seen e he
    simp only [SpecModel.processIncomingNode, Except.error.injEq] at he
    subst he
    tauto
  | succ f ih =>
    intro node sb seen e he
    simp only [SpecModel.processIncomingNode] at he
    by_cases hmem : nodeKey node ∈ seen
    · rw [if_pos hmem] at he
      simp at he
    · rw [if_neg hmem] at he
      by_cases happ : env.appendOk node sb = true
      · rw [if_pos happ] at he
        rcases hreq : (runChildren env
            (fun n sb' s => SpecModel.processIncomingNode env f n sb' s)
            node (env.findNeededInputs node) (nodeKey node :: seen)).1 with _ | err
        all_goals rw [hreq] at he
        · cases sb with
          | none =>
            by_cases hval : env.validateOk node.graphID = true
            · rw [if_pos hval] at he
              simp at he
            · rw [if_neg hval] at he
              simp only [Except.error.injEq] at he
              subst he
              tauto
          | some s => simp at he
        · simp only [Except.error.injEq] at he
          subst he
          exact runChildren_err env _ node _ (by tauto)
            (fun n sb' s e' h => ih n (some sb') s e' h) _ _ _ hreq
      · rw [if_neg happ] at he
        simp only [Except.error.injEq] at he
        subst he
        tauto

/-! ## Claim C9: discard errors are swallowed, the original error
propagates -/

/-- **C9.** In the spec-modelled evolved engine (`discardGraph` is
best-effort, §7): (i) the error propagated for a graph is never an error
raised by `discardGraph`; (ii) when `appendToGraph` fails and the ensuing
`discardGraph` also fails, the propagated error is the original append
error and the discard failure is merely logged; (iii) likewise at the tip
when `validateGraphAnchor` fails (shown for a node with no needed
inputs). -/
theorem c9_discard_errors_swallowed :
    (∀ (env : Env) (fuel : Nat) (node : GASPNode) (sb : Option Chars)
       (seen : Seen) (e : Err),
       (SpecModel.processIncomingNode env fuel node sb seen).1 = .error e →
       e ≠ .discardFailed) ∧
    (∀ (env : Env) (fuel : Nat) (node : GASPNode) (sb : Option Chars) (seen : Seen),
       nodeKey node ∉ seen → env.appendOk node sb = false →
       env.discardOk node.graphID = false →
       (SpecModel.processIncomingNode env (fuel + 1) node sb seen).1 =
         .error .appendFailed ∧
       Event.logDiscardFailed node.graphID ∈
         (SpecModel.processIncomingNode env (fuel + 1) node sb seen).2.1) ∧
    (∀ (env : Env) (fuel : Nat) (node : GASPNode) (seen : Seen),
       nodeKey node ∉ seen → env.appendOk node none = true →
       env.findNeededInputs node = [] → env.validateOk node.graphID = false →
       env.discardOk node.graphID = false →
       (SpecModel.processIncomingNode env (fuel + 1) node none seen).1 =
         .error .validateFailed ∧
       Event.logDiscardFailed node.graphID ∈
         (SpecModel.processIncomingNode env (fuel + 1) node none seen).2.1) := by
  refine ⟨?_, ?_, ?_⟩
  · intro env fuel node sb seen e he
    rcases specIncoming_err_cases env fuel node sb seen e he with h | h | h | h <;>
      simp [h]
  · intro env fuel node sb seen hmem happ hdis
    simp [SpecModel.processIncomingNode, SpecModel.discardBestEffort, hmem, happ, hdis]
  · intro env fuel node seen hmem happ hneed hval hdis
    simp [SpecModel.processIncomingNode, SpecModel.discardBestEffort, runChildren,
      hmem, happ, hneed, hval, hdis]

/-- Witness for C9: concrete storages whose `discardGraph` fails after a
failing append (graph `g` of tip `T`) and after a failing anchor
validation. -/
theorem c9_discard_errors_swallowed_witness :
    ((SpecModel.processIncomingNode envFailing 1 tipNodeT none []).1 =
        .error .appendFailed ∧
      Event.logDiscardFailed tipNodeT.graphID ∈
        (SpecModel.processIncomingNode envFailing 1 tipNodeT none []).2.1) ∧
    ((SpecModel.processIncomingNode envBadAnchor 1 tipNodeT none []).1 =
        .error .validateFailed ∧
      Event.logDiscardFailed tipNodeT.graphID ∈
        (SpecModel.processIncomingNode envBadAnchor 1 tipNodeT none []).2.1) :=
  ⟨c9_discard_errors_swallowed.2.1 envFailing 0 tipNodeT none []
      (by decide) rfl rfl,
   c9_discard_errors_swallowed.2.2 envBadAnchor 0 tipNodeT []
      (by decide) rfl rfl rfl rfl⟩

/-! ## Claim C8: a `none` answer from `submitNode` ends the branch -/

/-- **C8.** In the spec-modelled evolved outgoing processing, when
`remote.submitNode(node)` returns no `NodeResponse`, the branch returns
normally: the only event of the branch is that single `submitNode` call —
no error, no further `requestNode`, `hydrateGASPNode` or `submitNode`. -/
theorem c8_submit_none_ends_branch (env : Env) (fuel : Nat) (node : GASPNode)
    (seen : Seen) (hsub : env.submitNodeEv node = .ok none)
    (hmem : nodeKey node ∉ seen) :
    SpecModel.processOutgoingNode env (fuel + 1) node seen =
      (.ok (), [Event.submitNode node.tx node.outputIndex],
        nodeKey node :: seen) := by
  simp [SpecModel.processOutgoingNode, hmem, hsub]

/-- Witness for C8 at a concrete peer that needs nothing further. -/
theorem c8_submit_none_ends_branch_witness :
    SpecModel.processOutgoingNode envLoop 1 tipNodeT [] =
      (.ok (), [Event.submitNode tipNodeT.tx tipNodeT.outputIndex],
        nodeKey tipNodeT :: []) :=
  c8_submit_none_ends_branch envLoop 0 tipNodeT [] rfl (by decide)

/-! ## Claim C2: per-graph failure containment of the evolved `sync` -/

/-- A successful top-level run of the spec-modelled incoming processing
finalizes its graph. -/
theorem specIncoming_top_ok_finalize (env : Env) (fuel : Nat) (n : GASPNode)
    (h : (SpecModel.processIncomingNode env fuel n none []).1 = .ok ()) :
    Event.finalizeGraph n.graphID ∈
      (SpecModel.processIncomingNode env fuel n none []).2.1 := by
  cases fuel with
  | zero => simp [SpecModel.processIncomingNode] at h
  | succ f =>
    simp only [SpecModel.processIncomingNode, List.not_mem_nil, if_false] at h ⊢
    by_cases happ : env.appendOk n none = true
    · rw [if_pos happ] at h ⊢
      rcases hreq : (runChildren env
          (fun n' sb s => SpecModel.processIncomingNode env f n' sb s)
          n (env.findNeededInputs n) [nodeKey n]).1 with _ | err
      all_goals simp only [hreq] at h ⊢
      · by_cases hval : env.validateOk n.graphID = true
        · rw [if_pos hval]
          simp
        · rw [if_neg hval] at h
          simp at h
      · simp at h
    · rw [if_neg happ] at h
      simp at h

/-- Unfolding of the pull phase at a tip whose processing failed with a
non-version-mismatch error: the error is logged, the graph discarded
best-effort, and the remaining tips continue. -/
theorem pullPhase_cons_err (env : Env) (fuel : Nat) (n : GASPNode)
    (rest : List GASPNode) (err : Err)
    (hrun : (SpecModel.processIncomingNode env fuel n none []).1 = .error err)
    (hne : ∀ cv fv, err ≠ .versionMismatch cv fv) :
    SpecModel.pullPhase env fuel (n :: rest) =
      ((SpecModel.pullPhase env fuel rest).1,
       (SpecModel.processIncomingNode env fuel n none []).2.1 ++
         Event.logError err :: (SpecModel.discardBestEffort env n.graphID ++
           (SpecModel.pullPhase env fuel rest).2)) := by
  cases err with
  | versionMismatch cv fv => exact absurd rfl (hne cv fv)
  | appendFailed => simp [SpecModel.pullPhase, hrun]
  | validateFailed => simp [SpecModel.pullPhase, hrun]
  | remoteFailed => simp [SpecModel.pullPhase, hrun]
  | discardFailed => simp [SpecModel.pullPhase, hrun]
  | outOfFuel => simp [SpecModel.pullPhase, hrun]

/-- Unfolding of the pull phase at a tip whose processing succeeded. -/
theorem pullPhase_cons_ok (env : Env) (fuel : Nat) (n : GASPNode)
    (rest : List GASPNode)
    (hrun : (SpecModel.processIncomingNode env fuel n none []).1 = .ok ()) :
    SpecModel.pullPhase env fuel (n :: rest) =
      ((SpecModel.pullPhase env fuel rest).1,
       (SpecModel.processIncomingNode env fuel n none []).2.1 ++
         (SpecModel.pullPhase env fuel rest).2) := by
  simp [SpecModel.pullPhase, hrun]

/-- The discard invocation is always part of a best-effort discard. -/
theorem discard_mem_discardBestEffort (env : Env) (g : Chars) :
    Event.discardGraph g ∈ SpecModel.discardBestEffort env g := by
  unfold SpecModel.discardBestEffort
  split <;> simp

/-- The pull phase of the spec-modelled `sync` never fails, and every tip of
the initial response is driven to `Finalized` or `Discarded`, failures being
logged. -/
theorem pullPhase_props (env : Env) (fuel : Nat) : ∀ tips : List GASPNode,
    (SpecModel.pullPhase env fuel tips).1 = .ok () ∧
    ∀ n ∈ tips,
      (Event.finalizeGraph n.graphID ∈ (SpecModel.pullPhase env fuel tips).2 ∨
        Event.discardGraph n.graphID ∈ (SpecModel.pullPhase env fuel tips).2) ∧
      ∀ e, (SpecModel.processIncomingNode env fuel n none []).1 = .error e →
        Event.logError e ∈ (SpecModel.pullPhase env fuel tips).2 := by
  intro tips
  induction tips with
  | nil => exact ⟨rfl, by simp⟩
  | cons n rest ih =>
    rcases hrun : (SpecModel.processIncomingNode env fuel n none []).1 with err | u
    · have hne : ∀ cv fv, err ≠ Err.versionMismatch cv fv := by
        rcases specIncoming_err_cases env fuel n none [] err hrun with h | h | h | h <;>
          simp [h]
      have hexp := pullPhase_cons_err env fuel n rest err hrun hne
      rw [hexp]
      refine ⟨ih.1, ?_⟩
      intro m hm
      rcases List.mem_cons.1 hm with rfl | hmrest
      · refine ⟨Or.inr ?_, ?_⟩
        · simp only [List.mem_append, List.mem_cons]
          exact Or.inr (Or.inr (Or.inl (discard_mem_discardBestEffort env m.graphID)))
        · intro e he
          rw [hrun] at he
          cases he
          simp
      · obtain ⟨hfd, hlog⟩ := ih.2 m hmrest
        constructor
        · rcases hfd with h | h
          · exact Or.inl (by simp only [List.mem_append, List.mem_cons]; tauto)
          · exact Or.inr (by simp only [List.mem_append, List.mem_cons]; tauto)
        · intro e he
          have := hlog e he
          simp only [List.mem_append, List.mem_cons]
          tauto
    · cases u
      have hexp := pullPhase_cons_ok env fuel n rest hrun
      rw [hexp]
      refine ⟨ih.1, ?_⟩
      intro m hm
      rcases List.mem_cons.1 hm with rfl | hmrest
      · refine ⟨Or.inl ?_, ?_⟩
        · exact List.mem_append.2 (Or.inl (specIncoming_top_ok_finalize env fuel m hrun))
        · intro e he
          rw [hrun] at he
          cases he
      · obtain ⟨hfd, hlog⟩ := ih.2 m hmrest
        constructor
        · rcases hfd with h | h
          · exact Or.inl (List.mem_append.2 (Or.inr h))
          · exact Or.inr (List.mem_append.2 (Or.inr h))
        · intro e he
          exact List.mem_append.2 (Or.inr (hlog e he))

/-- **C2.** Once the handshake has produced an initial response, the
spec-modelled `sync()` resolves successfully no matter how the per-graph
processing fails (processing errors are never version mismatches): every
tip of the initial response is driven to `Finalized` or `Discarded`, each
failing graph's error is logged and not propagated to the caller. -/
theorem c2_sync_partial_failure (env : Env) (fuel : Nat) (tips : List GASPNode)
    (h : env.initialTips = .ok tips) :
    (SpecModel.sync env fuel).1 = .ok () ∧
    (∀ n ∈ tips,
      Event.finalizeGraph n.graphID ∈ (SpecModel.sync env fuel).2 ∨
      Event.discardGraph n.graphID ∈ (SpecModel.sync env fuel).2) ∧
    (∀ n ∈ tips, ∀ e,
      (SpecModel.processIncomingNode env fuel n none []).1 = .error e →
      Event.logError e ∈ (SpecModel.sync env fuel).2) := by
  have hp := pullPhase_props env fuel tips
  have hsync : SpecModel.sync env fuel =
      (.ok (), (SpecModel.pullPhase env fuel tips).2 ++
        SpecModel.pushPhase env fuel env.pushList) := by
    simp only [SpecModel.sync, h]
    simp only [hp.1]
  rw [hsync]
  refine ⟨rfl, ?_, ?_⟩
  · intro n hn
    rcases (hp.2 n hn).1 with h1 | h1
    · exact Or.inl (List.mem_append.2 (Or.inl h1))
    · exact Or.inr (List.mem_append.2 (Or.inl h1))
  · intro n hn e he
    exact List.mem_append.2 (Or.inl ((hp.2 n hn).2 e he))

/-- Witness for C2: a concrete session with two tips, of which graph `p`
fails anchor validation while graph `q` finalizes; `sync` still resolves. -/
theorem c2_sync_partial_failure_witness :
    (SpecModel.sync envPartial 2).1 = .ok () ∧
    (Event.finalizeGraph tipNodeQ.graphID ∈ (SpecModel.sync envPartial 2).2 ∨
      Event.discardGraph tipNodeQ.graphID ∈ (SpecModel.sync envPartial 2).2) ∧
    (Event.finalizeGraph tipNodeP.graphID ∈ (SpecModel.sync envPartial 2).2 ∨
      Event.discardGraph tipNodeP.graphID ∈ (SpecModel.sync envPartial 2).2) := by
  have h := c2_sync_partial_failure envPartial 2 [tipNodeP, tipNodeQ] rfl
  exact ⟨h.1, h.2.1 tipNodeQ (by simp), h.2.1 tipNodeP (by simp)⟩

/-! ## Claim C4: cycle termination and per-identity deduplication -/

theorem countAppend_append (tr1 tr2 : List Event) (p : NodeKey) :
    countAppend (tr1 ++ tr2) p = countAppend tr1 p + countAppend tr2 p := by
  simp [countAppend, List.filter_append]

theorem countAppend_cons (e : Event) (tr : List Event) (p : NodeKey) :
    countAppend (e :: tr) p =
      countAppend tr p + (if isAppendOf p e then 1 else 0) := by
  simp only [countAppend, List.filter_cons]
  split <;> simp

theorem missing_cons_mem {q : NodeKey} {s : Seen} (rest : List NodeKey)
    (h : q ∈ s) : missing (q :: rest) s = missing rest s := by
  simp only [missing, List.filter_cons]
  have e : (!decide (q ∈ s)) = false := by simp [h]
  rw [e, if_neg (by simp)]

theorem missing_cons_not_mem {q : NodeKey} {s : Seen} (rest : List NodeKey)
    (h : q ∉ s) : missing (q :: rest) s = missing rest s + 1 := by
  simp only [missing, List.filter_cons]
  have e : (!decide (q ∈ s)) = true := by simp [h]
  rw [e, if_pos rfl]
  simp

theorem missing_mono (U : List NodeKey) {s1 s2 : Seen}
    (h : ∀ p ∈ s1, p ∈ s2) : missing U s2 ≤ missing U s1 := by
  induction U with
  | nil => exact le_refl _
  | cons q rest ih =>
    by_cases h2 : q ∈ s2
    · by_cases h1 : q ∈ s1
      · rw [missing_cons_mem rest h2, missing_cons_mem rest h1]
        exact ih
      · rw [missing_cons_mem rest h2, missing_cons_not_mem rest h1]
        omega
    · have h1 : q ∉ s1 := fun hq => h2 (h q hq)
      rw [missing_cons_not_mem rest h2, missing_cons_not_mem rest h1]
      omega

theorem missing_insert_lt (U : List NodeKey) {k : NodeKey} {s : Seen}
    (hU : k ∈ U) (hs : k ∉ s) : missing U (k :: s) < missing U s := by
  induction U with
  | nil => simp at hU
  | cons q rest ih =>
    by_cases hqk : q = k
    · subst hqk
      have hmono : missing rest (q :: s) ≤ missing rest s :=
        missing_mono rest (fun p hp => List.mem_cons_of_mem _ hp)
      rw [missing_cons_mem rest (List.mem_cons_self _ _),
        missing_cons_not_mem rest hs]
      omega
    · have hU' : k ∈ rest := by
        rcases List.mem_cons.1 hU with h | h
        · exact absurd h.symm hqk
        · exact h
      have hih := ih hU'
      by_cases hqs : q ∈ s
      · rw [missing_cons_mem rest (List.mem_cons_of_mem _ hqs),
          missing_cons_mem rest hqs]
        exact hih
      · have hq2 : q ∉ k :: s := by
          intro hmem
          rcases List.mem_cons.1 hmem with h | h
          · exact hqk h
          · exact hqs h
        rw [missing_cons_not_mem rest hq2, missing_cons_not_mem rest hqs]
        omega

theorem ifAppend_requestNode (p : NodeKey) (t : Chars) (i : Nat) :
    (if isAppendOf p (Event.requestNode t i) then (1 : Nat) else 0) = 0 := rfl

/-- Fan-out bound: the appends of the children, plus a prior occurrence of
`p` in the incoming seen set, never exceed one occurrence of `p` in the
outgoing seen set; the seen set only grows. -/
theorem runChildren_appendCount (env : Env)
    (step : GASPNode → Option Chars → Seen → Except Err Unit × List Event × Seen)
    (hstep : ∀ n sb s,
      (∀ p, countAppend (step n (some sb) s).2.1 p + (if p ∈ s then 1 else 0) ≤
        (if p ∈ (step n (some sb) s).2.2 then 1 else 0)) ∧
      (∀ p ∈ s, p ∈ (step n (some sb) s).2.2))
    (node : GASPNode) :
    ∀ (l : List (Chars × Bool)) (seen : Seen),
      (∀ p, countAppend (runChildren env step node l seen).2.1 p +
        (if p ∈ seen then 1 else 0) ≤
          (if p ∈ (runChildren env step node l seen).2.2 then 1 else 0)) ∧
      (∀ p ∈ seen, p ∈ (runChildren env step node l seen).2.2) := by
  intro l
  induction l with
  | nil =>
    intro seen
    constructor
    · intro p
      simp [runChildren, countAppend]
    · intro p hp
      simpa [runChildren] using hp
  | cons hd rest ih =>
    intro seen
    obtain ⟨op, md⟩ := hd
    rcases hreq : env.requestNode (deconstruct36ByteStructure op).1
        (deconstruct36ByteStructure op).2 md with _ | newNode
    · simp only [runChildren, hreq]
      constructor
      · intro p
        rw [countAppend_cons, ifAppend_requestNode]
        have := (ih seen).1 p
        omega
      · exact (ih seen).2
    · simp only [runChildren, hreq]
      set sb := compute36ByteStructure (env.computeTXID node.tx) node.outputIndex with hsb
      obtain ⟨hc1, hc2⟩ := hstep newNode sb seen
      obtain ⟨hr1, hr2⟩ := ih (step newNode (some sb) seen).2.2
      constructor
      · intro p
        rw [countAppend_cons, countAppend_append, ifAppend_requestNode]
        have h1 := hc1 p
        have h2 := hr1 p
        have hle : (if p ∈ (runChildren env step node rest
            (step newNode (some sb) seen).2.2).2.2 then 1 else 0) ≤ 1 := by
          split <;> omega
        omega
      · intro p hp
        exact hr2 p (hc2 p hp)

theorem isAppendOf_append_event (p : NodeKey) (n : GASPNode) (g : Chars)
    (sb : Option Chars) :
    (if isAppendOf p (Event.appendToGraph n.tx n.outputIndex g sb) then (1 : Nat)
      else 0) = (if nodeKey n = p then 1 else 0) := by
  simp [isAppendOf, nodeKey]

/-- Each node identity is inserted into the seen set at most once, so it is
appended at most once; the seen set only grows. -/
theorem processIncomingNode_appendCount (env : Env) :
    ∀ (fuel : Nat) (node : GASPNode) (sb : Option Chars) (seen : Seen),
      (∀ p, countAppend (processIncomingNode env fuel node sb seen).2.1 p +
        (if p ∈ seen then 1 else 0) ≤
          (if p ∈ (processIncomingNode env fuel node sb seen).2.2 then 1 else 0)) ∧
      (∀ p ∈ seen, p ∈ (processIncomingNode env fuel node sb seen).2.2) := by
  intro fuel
  induction fuel with
  | zero =>
    intro node sb seen
    constructor
    · intro p
      simp [processIncomingNode, countAppend]
    · intro p hp
      simpa [processIncomingNode] using hp
  | succ f ih =>
    intro node sb seen
    simp only [processIncomingNode]
    by_cases hmem : nodeKey node ∈ seen
    · rw [if_pos hmem]
      constructor
      · intro p
        simp [countAppend]
      · intro p hp
        exact hp
    · rw [if_neg hmem]
      by_cases happ : env.appendOk node sb = true
      · rw [if_pos happ]
        obtain ⟨hrc1, hrc2⟩ := runChildren_appendCount env
          (fun n sb' s => processIncomingNode env f n sb' s)
          (fun n sb' s => ih n (some sb') s) node
          (env.findNeededInputs node) (nodeKey node :: seen)
        set c := runChildren env
          (fun n sb' s => processIncomingNode env f n sb' s)
          node (env.findNeededInputs node) (nodeKey node :: seen) with hcdef
        have hgrow : ∀ p ∈ seen, p ∈ c.2.2 :=
          fun p hp => hrc2 p (List.mem_cons_of_mem _ hp)
        have hfact : ∀ p,
            countAppend (Event.appendToGraph node.tx node.outputIndex node.graphID sb ::
              Event.findNeededInputs node.tx node.outputIndex :: c.2.1) p +
              (if p ∈ seen then 1 else 0) ≤ (if p ∈ c.2.2 then 1 else 0) := by
          intro p
          rw [countAppend_cons, countAppend_cons, isAppendOf_append_event]
          have hfn : (if isAppendOf p
              (Event.findNeededInputs node.tx node.outputIndex) then (1 : Nat)
              else 0) = 0 := rfl
          rw [hfn]
          have h1 := hrc1 p
          have hle : (if p ∈ c.2.2 then 1 else 0) ≤ 1 := by split <;> omega
          by_cases hp : nodeKey node = p
          · rw [if_pos hp]
            have hin : (if p ∈ nodeKey node :: seen then 1 else 0) = 1 :=
              if_pos (by rw [← hp]; exact List.mem_cons_self _ _)
            rw [hin] at h1
            have hpseen : (if p ∈ seen then 1 else 0) = 0 :=
              if_neg (fun hin' => hmem (by rw [hp]; exact hin'))
            rw [hpseen]
            omega
          · rw [if_neg hp]
            have hin : (if p ∈ nodeKey node :: seen then 1 else 0) =
                (if p ∈ seen then 1 else 0) := by
              by_cases hps : p ∈ seen
              · rw [if_pos hps, if_pos (List.mem_cons_of_mem _ hps)]
              · rw [if_neg hps, if_neg (fun hm => by
                  rcases List.mem_cons.1 hm with h | h
                  · exact hp h.symm
                  · exact hps h)]
            rw [hin] at h1
            omega
        rcases hcc : c.1 with _ | e
        · simp only [hcc]
          cases sb with
          | some s => exact ⟨hfact, hgrow⟩
          | none =>
            dsimp only
            by_cases hval : env.validateOk node.graphID = true
            · rw [if_pos hval]
              dsimp only
              refine ⟨?_, hgrow⟩
              intro p
              rw [countAppend_append]
              have h0 : countAppend [Event.validateGraphAnchor node.graphID,
                  Event.finalizeGraph node.graphID] p = 0 := rfl
              rw [h0]
              have := hfact p
              omega
            · rw [if_neg hval]
              dsimp only
              refine ⟨?_, hgrow⟩
              intro p
              rw [countAppend_append]
              have h0 : countAppend [Event.validateGraphAnchor node.graphID,
                  Event.discardGraph node.graphID] p = 0 := rfl
              rw [h0]
              have := hfact p
              omega
        · simp only [hcc]
          exact ⟨hfact, hgrow⟩
      · rw [if_neg happ]
        constructor
        · intro p
          have hcnt : countAppend
              [Event.appendToGraph node.tx node.outputIndex node.graphID sb,
               Event.discardGraph node.graphID] p =
              (if nodeKey node = p then 1 else 0) := by
            rw [countAppend_cons, countAppend_cons, isAppendOf_append_event]
            have h0 : (if isAppendOf p (Event.discardGraph node.graphID) then (1 : Nat)
                else 0) = 0 := rfl
            rw [h0]
            simp [countAppend]
          rw [hcnt]
          by_cases hp : nodeKey node = p
          · rw [if_pos hp]
            have hpseen : (if p ∈ seen then 1 else 0) = 0 :=
              if_neg (fun hin' => hmem (by rw [hp]; exact hin'))
            have hin : (if p ∈ nodeKey node :: seen then 1 else 0) = 1 :=
              if_pos (by rw [← hp]; exact List.mem_cons_self _ _)
            rw [hpseen, hin]
          · rw [if_neg hp]
            have hin : (if p ∈ nodeKey node :: seen then 1 else 0) =
                (if p ∈ seen then 1 else 0) := by
              by_cases hps : p ∈ seen
              · rw [if_pos hps, if_pos (List.mem_cons_of_mem _ hps)]
              · rw [if_neg hps, if_neg (fun hm => by
                  rcases List.mem_cons.1 hm with h | h
                  · exact hp h.symm
                  · exact hps h)]
            rw [hin]
            omega
        · intro p hp
          exact List.mem_cons_of_mem _ hp

/-- Fuel adequacy for the fan-out: if every recursive call with fewer
not-yet-seen identities than `f` avoids fuel exhaustion, so does the whole
fan-out. -/
theorem runChildren_noFuelErr (env : Env) (U : List NodeKey) (f : Nat)
    (step : GASPNode → Option Chars → Seen → Except Err Unit × List Event × Seen)
    (hclosed : ∀ t i m n', env.requestNode t i m = some n' → nodeKey n' ∈ U)
    (hmono : ∀ n sb s, ∀ p ∈ s, p ∈ (step n (some sb) s).2.2)
    (hstep : ∀ n sb s, nodeKey n ∈ U → missing U s < f →
      (step n (some sb) s).1 ≠ .error .outOfFuel)
    (node : GASPNode) :
    ∀ (l : List (Chars × Bool)) (seen : Seen), missing U seen < f →
      (runChildren env step node l seen).1 ≠ some .outOfFuel := by
  intro l
  induction l with
  | nil =>
    intro seen hm
    simp [runChildren]
  | cons hd rest ih =>
    intro seen hm
    obtain ⟨op, md⟩ := hd
    rcases hreq : env.requestNode (deconstruct36ByteStructure op).1
        (deconstruct36ByteStructure op).2 md with _ | newNode
    · simp only [runChildren, hreq]
      simp
    · simp only [runChildren, hreq]
      have hkey := hclosed _ _ _ _ hreq
      set sb := compute36ByteStructure (env.computeTXID node.tx) node.outputIndex
        with hsb
      have hcnofuel := hstep newNode sb seen hkey hm
      have hm2 : missing U (step newNode (some sb) seen).2.2 < f :=
        lt_of_le_of_lt (missing_mono U (hmono newNode sb seen)) hm
      have hrest := ih (step newNode (some sb) seen).2.2 hm2
      rcases hstep1 : (step newNode (some sb) seen).1 with e | u
      · simp only [hstep1]
        intro hcontra
        injection hcontra with he
        exact hcnofuel (hstep1.trans (by rw [he]))
      · simp only [hstep1]
        exact hrest

/-- Fuel adequacy: with one unit of fuel more than the number of
not-yet-seen identities of a finite universe `U` containing the identity of
the processed node and closed under the Remote's `requestNode` answers, the
run never exhausts its fuel — the recursion terminates even against a peer
that loops. -/
theorem processIncomingNode_noFuelErr (env : Env) (U : List NodeKey)
    (hclosed : ∀ t i m n', env.requestNode t i m = some n' → nodeKey n' ∈ U) :
    ∀ (fuel : Nat) (node : GASPNode) (sb : Option Chars) (seen : Seen),
      nodeKey node ∈ U → missing U seen < fuel →
      (processIncomingNode env fuel node sb seen).1 ≠ .error .outOfFuel := by
  intro fuel
  induction fuel with
  | zero =>
    intro node sb seen hk hm
    omega
  | succ f ih =>
    intro node sb seen hk hm
    simp only [processIncomingNode]
    by_cases hmem : nodeKey node ∈ seen
    · rw [if_pos hmem]
      simp
    · rw [if_neg hmem]
      by_cases happ : env.appendOk node sb = true
      · rw [if_pos happ]
        have hm1 : missing U (nodeKey node :: seen) < f := by
          have := missing_insert_lt U hk hmem
          omega
        have hchild := runChildren_noFuelErr env U f
          (fun n sb' s => processIncomingNode env f n sb' s) hclosed
          (fun n sb' s => (processIncomingNode_appendCount env f n (some sb') s).2)
          (fun n sb' s hkey hms => ih n (some sb') s hkey hms)
          node (env.findNeededInputs node) (nodeKey node :: seen) hm1
        rcases hcc : (runChildren env
            (fun n sb' s => processIncomingNode env f n sb' s)
            node (env.findNeededInputs node) (nodeKey node :: seen)).1 with _ | e
        · simp only [hcc]
          cases sb with
          | some s => simp
          | none =>
            dsimp only
            by_cases hval : env.validateOk node.graphID = true
            · rw [if_pos hval]
              simp
            · rw [if_neg hval]
              dsimp only
              split <;> simp
        · simp only [hcc]
          rw [hcc] at hchild
          intro hcontra
          injection hcontra with he
          exact hchild (by rw [he])
      · rw [if_neg happ]
        dsimp only
        split <;> simp

/-- **C4 (amended).** Against any peer behaviour whose answered nodes stay in
a finite identity universe `U` — in particular any peer that loops by
returning already-seen outpoints — the recursion of `processIncomingNode`
terminates: `missing U seen + 1` fuel is never exhausted.  Within one
top-level graph, each `(tx, outputIndex)` identity is *processed* at most
once: at most one `appendToGraph` (and one `findNeededInputs`) per identity.
(The original claim's "at most one `requestNode` per identity" fails, see
the counterexample: the request is issued before the returned node's
identity is checked against the seen set, so two processed nodes listing
the same needed outpoint both request it.) -/
theorem c4_cycle_termination (env : Env) (U : List NodeKey) (fuel : Nat)
    (node : GASPNode) (sb : Option Chars) (seen : Seen)
    (hnode : nodeKey node ∈ U)
    (hclosed : ∀ t i m n', env.requestNode t i m = some n' → nodeKey n' ∈ U)
    (hfuel : missing U seen < fuel) :
    (processIncomingNode env fuel node sb seen).1 ≠ .error .outOfFuel ∧
    ∀ p, countAppend (processIncomingNode env fuel node sb seen).2.1 p +
      (if p ∈ seen then 1 else 0) ≤ 1 := by
  refine ⟨processIncomingNode_noFuelErr env U hclosed fuel node sb seen hnode hfuel,
    ?_⟩
  intro p
  have h1 := (processIncomingNode_appendCount env fuel node sb seen).1 p
  have hle : (if p ∈ (processIncomingNode env fuel node sb seen).2.2 then 1 else 0) ≤ 1 := by
    split <;> omega
  omega

/-- **C4 counterexample.** In `envLoop` the tip `T` and the child `C` each
list the outpoint `"c:0"` (identity `(c, 0)` = `C`'s identity) among their
needed inputs.  The run terminates and appends each identity once, but
`remote.requestNode` is invoked **twice** for the identity `(c, 0)` within
the single top-level graph, refuting "each node identity triggers at most
one call to `remote.requestNode`". -/
theorem c4_counterexample :
    countRequest (processIncomingNode envLoop 5 tipNodeT none []).2.1 (['c'], 0) = 2 ∧
    ¬ countRequest (processIncomingNode envLoop 5 tipNodeT none []).2.1 (['c'], 0) ≤ 1 := by
  constructor
  · rfl
  · decide

/-- Witness for the amended C4 at the concrete looping environment, with
universe `{(t,0), (c,0)}` and fuel `5`. -/
theorem c4_cycle_termination_witness :
    (processIncomingNode envLoop 5 tipNodeT none []).1 ≠ .error .outOfFuel ∧
    countAppend (processIncomingNode envLoop 5 tipNodeT none []).2.1 (['c'], 0) +
      (if (['c'], 0) ∈ ([] : Seen) then 1 else 0) ≤ 1 := by
  have h := c4_cycle_termination envLoop [(['t'], 0), (['c'], 0)] 5 tipNodeT none []
    (by decide)
    (by
      intro t i m n' hreq
      injection hreq with he
      rw [← he]
      decide)
    (by decide)
  exact ⟨h.1, h.2 (['c'], 0)⟩

/-! ## Claim C7: idempotent no-op when both peers know the same tips -/

theorem prefixEq_self_append (x t : Chars) : prefixEq x (x ++ t) = true := by
  induction x with
  | nil => rfl
  | cons c cs ih => simp [prefixEq, ih]

theorem jsIncludes_self_append (x t : Chars) : jsIncludes x (x ++ t) = true := by
  cases hxt : x ++ t with
  | nil =>
    have hx : x = [] := (List.append_eq_nil.1 hxt).1
    subst hx
    simp [jsIncludes]
  | cons c rest =>
    have hp : prefixEq x (c :: rest) = true := by
      rw [← hxt]
      exact prefixEq_self_append x t
    simp [jsIncludes, hp]

theorem jsIncludes_append_right (x h t : Chars) (hin : jsIncludes x t = true) :
    jsIncludes x (h ++ t) = true := by
  induction h with
  | nil => simpa
  | cons c cs ih =>
    simp only [List.cons_append, jsIncludes, List.append_eq]
    rw [ih]
    simp

theorem jsIncludes_joinComma {x : Chars} {parts : List Chars} (h : x ∈ parts) :
    jsIncludes x (joinComma parts) = true := by
  induction parts with
  | nil => simp at h
  | cons p rest ih =>
    rcases List.mem_cons.1 h with rfl | hr
    · cases rest with
      | nil =>
        simpa [joinComma] using jsIncludes_self_append x []
      | cons q qr =>
        simpa [joinComma] using jsIncludes_self_append x (',' :: joinComma (q :: qr))
    · cases rest with
      | nil => simp at hr
      | cons q qr =>
        show jsIncludes x (p ++ ',' :: joinComma (q :: qr)) = true
        rw [List.append_cons]
        exact jsIncludes_append_right x _ _ (ih hr)

/-- A UTXO present in the peer set that built the bloom filter is (probably)
in the filter, so it is not synced. -/
theorem checkFilterExclusion_mem (known : List (Chars × Nat)) {p : Chars × Nat}
    (h : p ∈ known) :
    checkFilterExclusion (calculateBloomFilter known) p.1 p.2 = false := by
  unfold checkFilterExclusion calculateBloomFilter
  have hm : token p.1 p.2 ∈ known.map (fun q => token q.1 q.2) :=
    List.mem_map_of_mem _ h
  rw [jsIncludes_joinComma hm]
  rfl

/-- When every locally known UTXO is in the set the filter was built from,
`getSyncUTXOsForFilter` hydrates nothing. -/
theorem getSyncUTXOs_all_known (env : Env) (known2 : List (Chars × Nat))
    (h : ∀ p ∈ env.knownUTXOs, p ∈ known2) :
    getSyncUTXOsForFilterE env (calculateBloomFilter known2) =
      ([], [Event.findKnownUTXOs]) := by
  unfold getSyncUTXOsForFilterE
  have hempty : env.knownUTXOs.filter
      (fun p => checkFilterExclusion (calculateBloomFilter known2) p.1 p.2) = [] := by
    rw [List.filter_eq_nil_iff]
    intro a ha
    rw [checkFilterExclusion_mem known2 (h a ha)]
    simp
  rw [hempty]
  rfl

/-- **C7.** When the two peers' known tip sets are equal, a legacy `sync()`
session performs no `appendToGraph`, no `finalizeGraph` and no
`discardGraph` on either side's Storage (the traces contain no graph
mutation at all). -/
theorem c7_no_op_on_equal_tips (envA envB : Env) (fuel : Nat)
    (h : ∀ p, p ∈ envA.knownUTXOs ↔ p ∈ envB.knownUTXOs) :
    (syncLegacy envA envB fuel).2.1.filter isGraphMutation = [] ∧
    (syncLegacy envA envB fuel).2.2.filter isGraphMutation = [] := by
  have hrespB : buildInitialResponse envB 1 (buildInitialRequest envA 1).1 =
      (.ok [], [Event.findKnownUTXOs]) := by
    unfold buildInitialRequest
    dsimp only
    unfold buildInitialResponse
    rw [if_neg (by simp)]
    rw [getSyncUTXOs_all_known envB envA.knownUTXOs (fun p hp => (h p).2 hp)]
  have hpushA : getSyncUTXOsForFilterE envA (calculateBloomFilter envB.knownUTXOs) =
      ([], [Event.findKnownUTXOs]) :=
    getSyncUTXOs_all_known envA envB.knownUTXOs (fun p hp => (h p).1 hp)
  have hsync : syncLegacy envA envB fuel =
      (.ok (), [Event.findKnownUTXOs, Event.findKnownUTXOs],
        [Event.findKnownUTXOs]) := by
    unfold syncLegacy
    simp only [hrespB, pullAll, hpushA, pushAll]
    simp [buildInitialRequest]
  rw [hsync]
  exact ⟨rfl, rfl⟩

/-- Witness for C7: two peers that both know exactly `("x", 0)`. -/
theorem c7_no_op_on_equal_tips_witness :
    (syncLegacy envKnownX envKnownX 2).2.1.filter isGraphMutation = [] ∧
    (syncLegacy envKnownX envKnownX 2).2.2.filter isGraphMutation = [] :=
  c7_no_op_on_equal_tips envKnownX envKnownX 2 (fun _ => Iff.rfl)

end GASP
